import Mathlib

/-!
Verification of the weighted evaluation scoring and anonymization pipeline
of the Online Peer Evaluation Tool backend.

Source files embedded here:
- `app/utils/weighted_scoring.py` (class `WeightedScoringCalculator`)
- `app/utils/anonymity.py`

Modelling conventions:
- Python `decimal.Decimal` values are modelled as exact rationals (`ℚ`).
  Python's decimal context carries 28 significant digits; every quantity the
  pipeline manipulates (weights in [0,100], scores, totals around 100) is far
  below that precision, so additions, subtractions and multiplications are
  exact in Python too.  Divisions are correctly rounded to 28 significant
  digits in Python; the error (≤ 1e-26) is ten or more orders of magnitude
  below the 2-decimal quantization step used on every output, so the quantized
  outputs coincide with the exact-arithmetic ones modelled here.  In
  `distribute_weights_evenly` this means the `total != 100` residual branch,
  which in Python fires with a residual of at most 1e-26 applied before
  quantization, never changes the quantized output, so it is modelled with the
  exact total.
- Python `float(...)` conversions of the final 2-decimal `Decimal` values are
  correctly rounded to binary64, hence exact for every magnitude the
  application handles (below 2^53 / 100); they are modelled as the identity.
- Python dicts with a fixed key schema are modelled as structures; a key the
  code reads with `d.get(k, default)` (optional) becomes an `Option` field,
  and a key read with `d[k]` (required by the code, a `KeyError` otherwise)
  becomes a plain field, matching the expected input shapes.
- Dict-backed score lookup (`{s['criterion_id']: s['score'] for s in scores}`)
  keeps the last entry for a repeated key; it is modelled by searching the
  reversed list.
- Statements the interpreter can fail on (`weights[0]` on an empty list,
  division) are modelled in `Except PyError`.
-/

namespace OPET

/-- Python `decimal.Decimal.quantize(Decimal('0.01'), rounding=ROUND_HALF_UP)`:
round to 2 decimal places, ties away from zero. -/
def q2 (x : ℚ) : ℚ :=
  if 0 ≤ x then (⌊100 * x + 1/2⌋ : ℚ) / 100
  else -((⌊100 * (-x) + 1/2⌋ : ℚ) / 100)

/-- Python's built-in `round(x, 2)` (used only for the `percentage` field):
round to 2 decimal places, ties to even.  (Python applies it to a binary64
value; the values reaching it in this code are quotients of 2-decimal
quantities, for which the tie behaviour is the only distinction that the
claims ever touch, and none of the claims constrain `percentage`.) -/
def pyRound2 (x : ℚ) : ℚ :=
  let y := 100 * x
  if y - ⌊y⌋ < 1/2 then (⌊y⌋ : ℚ) / 100
  else if 1/2 < y - ⌊y⌋ then (⌊y⌋ + 1 : ℚ) / 100
  else if Even ⌊y⌋ then (⌊y⌋ : ℚ) / 100 else (⌊y⌋ + 1 : ℚ) / 100

/-- Errors the Python interpreter can raise in the embedded code. -/
inductive PyError where
  | ZeroDivisionError
  | IndexError
  deriving Repr, DecidableEq

/-- Python `Decimal` division as the interpreter executes it: raises
`ZeroDivisionError` on a zero divisor. -/
def divD (a b : ℚ) : Except PyError ℚ :=
  if b = 0 then .error .ZeroDivisionError else .ok (a / b)

/-- `weights[0] += diff` on a Python list: raises `IndexError` when empty. -/
def bumpHead (l : List ℚ) (d : ℚ) : Except PyError (List ℚ) :=
  match l with
  | [] => .error .IndexError
  | w :: ws => .ok ((w + d) :: ws)

/-- A criterion dict as consumed by `WeightedScoringCalculator`:
`id` is read with `c['id']` (required), `weight`, `max_points` and `text`
with `c.get(...)` (optional, defaulted). -/
structure Criterion where
  id : Int
  weight : Option ℚ
  max_points : Option ℚ
  text : Option String
  deriving Repr, DecidableEq

/-- A score dict: both `criterion_id` and `score` are read with `s[...]`. -/
structure ScoreEntry where
  criterion_id : Int
  score : ℚ
  deriving Repr, DecidableEq

/-- One element of the `breakdown` list. -/
structure BreakdownEntry where
  criterion_id : Int
  criterion_text : String
  raw_score : ℚ
  max_points : ℚ
  weight : ℚ
  weighted_score : ℚ
  deriving Repr, DecidableEq

/-- The dict returned by `calculate_weighted_score`. -/
structure WeightedResult where
  weighted_total : ℚ
  breakdown : List BreakdownEntry
  percentage : ℚ
  max_score : Int
  deriving Repr, DecidableEq

/-- `score_map = {s['criterion_id']: s['score'] for s in scores}` followed by
`score_map.get(cid, 0)`-style lookup: the dict keeps the **last** entry for a
repeated key, so an entry further down the list takes priority. -/
def score_map : List ScoreEntry → Int → Option ℚ
  | [], _ => none
  | s :: rest, cid =>
    match score_map rest cid with
    | some v => some v
    | none => if s.criterion_id = cid then some s.score else none

/-- The exact (unrounded) weighted value of one criterion, as accumulated into
`weighted_sum`: `normalized * (weight / 100) * max_score` with
`normalized = score / max_points` when `max_points > 0`, else `0`. -/
def weightedValue (scores : List ScoreEntry) (max_score : Int) (c : Criterion) : ℚ :=
  let weight := c.weight.getD 0
  let max_points := c.max_points.getD 0
  let score := (score_map scores c.id).getD 0
  let normalized := if 0 < max_points then score / max_points else 0
  normalized * (weight / 100) * (max_score : ℚ)

/-- The breakdown entry appended for one criterion. -/
def breakdownEntry (scores : List ScoreEntry) (max_score : Int) (c : Criterion) :
    BreakdownEntry :=
  { criterion_id := c.id
    criterion_text := c.text.getD ""
    raw_score := (score_map scores c.id).getD 0
    max_points := c.max_points.getD 0
    weight := c.weight.getD 0
    weighted_score := q2 (weightedValue scores max_score c) }

/-- `WeightedScoringCalculator.calculate_weighted_score(scores, criteria,
max_score)`.  (The `criteria_map` built on its first line is never used by the
loop, which iterates over `criteria` directly; it is omitted.)  The loop
appends one breakdown entry per criterion and accumulates the exact weighted
values; the total is quantized to 2 decimals with `ROUND_HALF_UP`. -/
def calculate_weighted_score (scores : List ScoreEntry) (criteria : List Criterion)
    (max_score : Int) : WeightedResult :=
  let weighted_breakdown := criteria.map (breakdownEntry scores max_score)
  let weighted_sum := (criteria.map (weightedValue scores max_score)).sum
  let final_score := q2 weighted_sum
  let percentage := if 0 < max_score then pyRound2 (final_score / (max_score : ℚ) * 100) else 0
  { weighted_total := final_score
    breakdown := weighted_breakdown
    percentage := percentage
    max_score := max_score }

/-- One iteration of the `calculate_weighted_score` loop as the interpreter
executes it, with the division explicit: the `score / max_points` division is
only reached under the `max_points > 0` guard. -/
def criterionStep (scores : List ScoreEntry) (max_score : Int) (c : Criterion) :
    Except PyError (BreakdownEntry × ℚ) := do
  let weight := c.weight.getD 0
  let max_points := c.max_points.getD 0
  let score := (score_map scores c.id).getD 0
  let normalized ← if 0 < max_points then divD score max_points else pure 0
  let weighted_value := normalized * (weight / 100) * (max_score : ℚ)
  pure (⟨c.id, c.text.getD "", score, max_points, weight, q2 weighted_value⟩, weighted_value)

/-- A `for` loop over a list whose body can raise, collecting the results in
order; the first raised error aborts the loop, as in Python. -/
def mapE (f : α → Except PyError β) : List α → Except PyError (List β)
  | [] => .ok []
  | a :: as => do
    let b ← f a
    let bs ← mapE f as
    pure (b :: bs)

/-- `calculate_weighted_score` run in the error monad: every statement that
could raise is explicit.  Used to state that the function never raises. -/
def calculate_weighted_score_checked (scores : List ScoreEntry)
    (criteria : List Criterion) (max_score : Int) : Except PyError WeightedResult := do
  let steps ← mapE (criterionStep scores max_score) criteria
  let final_score := q2 (steps.map (fun p => p.2)).sum
  let percentage := if 0 < max_score then pyRound2 (final_score / (max_score : ℚ) * 100) else 0
  pure { weighted_total := final_score
         breakdown := steps.map (fun p => p.1)
         percentage := percentage
         max_score := max_score }

/-- `WeightedScoringCalculator.distribute_weights_evenly(num_criteria)`.
In Python `base_weight = Decimal('100') / Decimal(str(num_criteria))` is
correctly rounded to 28 significant digits, so `sum(weights)` can miss 100 by
at most ~1e-26 and the residual branch adds that difference back to
`weights[0]` **before** the 2-decimal quantization; since 1e-26 can never move
a value across a 0.005 rounding boundary of 100/n, the quantized output equals
the exact-arithmetic one, where the total is exactly 100 and the branch does
not fire. -/
def distribute_weights_evenly (num_criteria : Int) : List ℚ :=
  if num_criteria ≤ 0 then []
  else
    let base_weight : ℚ := 100 / (num_criteria : ℚ)
    let weights := List.replicate num_criteria.toNat base_weight
    let total := weights.sum
    let weights2 :=
      if total = 100 then weights
      else
        match weights with
        | [] => []  -- unreachable: num_criteria > 0 makes weights non-empty
        | w :: ws => (w + (100 - total)) :: ws
    weights2.map q2

/-- The `importance_multipliers` dict lookup with default `Decimal('1')`:
`high` ↦ 2, `medium` ↦ 1, `low` ↦ 0.5, anything else ↦ 1. -/
def importanceMultiplier (importance : String) : ℚ :=
  if importance = "high" then 2
  else if importance = "medium" then 1
  else if importance = "low" then 1/2
  else 1

/-- Association-list lookup for the `importance_levels` dict.  A Python dict
has unique keys, so which matching entry wins is immaterial. -/
def lookupImportance (cid : Int) : List (Int × String) → Option String
  | [] => none
  | p :: rest => if p.1 = cid then some p.2 else lookupImportance cid rest

/-- `importance_levels.get(criterion['id'], 'medium')`. -/
def importanceOf (importance_levels : List (Int × String)) (c : Criterion) : String :=
  (lookupImportance c.id importance_levels).getD "medium"

/-- `WeightedScoringCalculator.get_weight_suggestions(criteria,
importance_levels)`.  `if not importance_levels:` is true for `None` and for
an empty dict.  On the proportional path each per-criterion weight is
quantized to 2 decimals and the residual `100 - total` is then added to
`weights[0]` — an `IndexError` when `criteria` is empty, since `sum([]) = 0`
differs from 100. -/
def get_weight_suggestions (criteria : List Criterion)
    (importance_levels : Option (List (Int × String))) : Except PyError (List ℚ) :=
  match importance_levels with
  | none => .ok (distribute_weights_evenly criteria.length)
  | some il =>
    if il = [] then .ok (distribute_weights_evenly criteria.length)
    else do
      let total_units := (criteria.map (fun c => importanceMultiplier (importanceOf il c))).sum
      let weights ← mapE (fun c => do
        let w ← divD (importanceMultiplier (importanceOf il c)) total_units
        pure (q2 (w * 100))) criteria
      let total := weights.sum
      if total = 100 then pure weights else bumpHead weights (100 - total)

/-- The total weight `sum(Decimal(str(c.get('weight', 0))) for c in criteria)`
computed by `validate_weights`. -/
def totalWeight (criteria : List Criterion) : ℚ :=
  (criteria.map (fun c => c.weight.getD 0)).sum

/-- The error messages `validate_weights` can produce, by f-string shape;
the payloads are the values interpolated into the message. -/
inductive WError where
  | noCriteria
  | badSum (total : ℚ)
  | negativeWeight (criterionNumber : Nat) (w : ℚ)
  | weightTooBig (criterionNumber : Nat) (w : ℚ)
  deriving Repr, DecidableEq

/-- The `for i, criterion in enumerate(criteria)` loop of `validate_weights`:
first offending criterion wins, the negative check precedes the > 100 check,
and the reported number is `i + 1`. -/
def checkIndividual (n : Nat) : List Criterion → Option WError
  | [] => none
  | c :: rest =>
    let w := c.weight.getD 0
    if w < 0 then some (.negativeWeight n w)
    else if 100 < w then some (.weightTooBig n w)
    else checkIndividual (n + 1) rest

/-- `WeightedScoringCalculator.validate_weights(criteria)`; the empty message
`""` is `none`. -/
def validate_weights (criteria : List Criterion) : Bool × Option WError :=
  if criteria = [] then (false, some .noCriteria)
  else
    let total_weight := totalWeight criteria
    if 1/100 < |total_weight - 100| then (false, some (.badSum total_weight))
    else
      match checkIndividual 1 criteria with
      | some e => (false, some e)
      | none => (true, none)

/-! ### Anonymity utilities (`app/utils/anonymity.py`) -/

/-- Python `str.lower()`, for the ASCII role strings the module compares
against (`"instructor"`, `"admin"`). -/
def pyLower (s : String) : String := ⟨s.data.map Char.toLower⟩

/-- A JSON-ish identifier: the anonymization sentinel uses the string
`"anonymous"` where real records carry integer ids. -/
inductive PyId where
  | str (v : String)
  | int (v : Int)
  deriving Repr, DecidableEq

/-- The `evaluator` sub-object `{id, name, email}`. -/
structure Evaluator where
  id : PyId
  name : String
  email : String
  deriving Repr, DecidableEq

/-- The fixed sentinel substituted for `evaluator`. -/
def anonymousEvaluator : Evaluator :=
  { id := .str "anonymous", name := "Anonymous", email := "anonymous@hidden.com" }

/-- `_can_view_evaluator_identity(requester_role)`:
`requester_role and requester_role.lower() in ["instructor", "admin"]`.
`None` and `""` are falsy, so the whole expression is falsy for them; the
result is only ever used in boolean position, so it is modelled as `Bool`. -/
def can_view_evaluator_identity (requester_role : Option String) : Bool :=
  match requester_role with
  | none => false
  | some r =>
    if r = "" then false
    else pyLower r = "instructor" ∨ pyLower r = "admin"

/-- `should_anonymize_for_user(requester_role)`. -/
def should_anonymize_for_user (requester_role : Option String) : Bool :=
  !(can_view_evaluator_identity requester_role)

/-- An evaluation record as consumed by `anonymize_evaluator`.  Every field
access in the module is guarded by an `in` test, so every field is optional;
`Option` models key presence. -/
structure Evaluation where
  id : Option Int
  evaluator_id : Option Int
  evaluator : Option Evaluator
  evaluatee_id : Option Int
  total_score : Option ℚ
  comments : Option String
  evaluator_id_hidden : Option Bool
  deriving Repr, DecidableEq

/-- `anonymize_evaluator(evaluation, requester_id, requester_role)`.  Works on
a shallow copy of the input (the input dict itself is never written);
`requester_id` is accepted and ignored, as in the source.  When the role may
not view identities: the `evaluator` key, if present, is replaced by the
sentinel; `evaluator_id_hidden = True` is set **only if** the record has an
`evaluator_id` key; `evaluator_id` itself is never modified. -/
def anonymize_evaluator (evaluation : Evaluation) (requester_id : Option Int)
    (requester_role : Option String) : Evaluation :=
  let _ := requester_id
  let result := evaluation
  if can_view_evaluator_identity requester_role then result
  else
    let result :=
      match result.evaluator with
      | some _ => { result with evaluator := some anonymousEvaluator }
      | none => result
    match result.evaluator_id with
    | some _ => { result with evaluator_id_hidden := some true }
    | none => result

/-- `anonymize_evaluation_list(evaluations, requester_id, requester_role)`. -/
def anonymize_evaluation_list (evaluations : List Evaluation)
    (requester_id : Option Int) (requester_role : Option String) : List Evaluation :=
  evaluations.map (fun evaluation => anonymize_evaluator evaluation requester_id requester_role)

/-- A member dict inside a team report; only its `evaluations` key is ever
touched. -/
structure Member where
  evaluations : Option (List Evaluation)
  deriving Repr, DecidableEq

/-- A team dict inside a project report. -/
structure Team where
  members : Option (List Member)
  deriving Repr, DecidableEq

/-- A report dict: the fixed set of container keys `anonymize_report_data`
walks. -/
structure Report where
  evaluations : Option (List Evaluation)
  detailed_evaluations : Option (List Evaluation)
  members : Option (List Member)
  teams : Option (List Team)
  deriving Repr, DecidableEq

/-- `anonymize_report_data(report_data, requester_role)`, modelled with the
interpreter's aliasing made explicit.  `result = report_data.copy()` is a
**shallow** copy: `result["members"]` and `result["teams"]` are the same list
objects as the input's, and the loops assign
`member_data["evaluations"] = ...` into those shared member dicts, so those
writes are visible through `report_data` as well.  The two top-level
assignments (`result["evaluations"]`, `result["detailed_evaluations"]`)
rebind keys of the copy only.  The function therefore returns a pair
`(result, report_data_after)`: the value returned by the Python function and
the value of the caller's `report_data` argument once the call ends.  (The
local `can_view_evaluator` computed at the top of the source function is
unused there and omitted.) -/
def anonymize_report_data (report_data : Report) (requester_role : Option String) :
    Report × Report :=
  let anonL := fun l => anonymize_evaluation_list l none requester_role
  let anonMember := fun m => { m with evaluations := m.evaluations.map anonL }
  let anonTeam := fun t => { t with members := t.members.map (List.map anonMember) }
  let members2 := report_data.members.map (List.map anonMember)
  let teams2 := report_data.teams.map (List.map anonTeam)
  let result : Report :=
    { evaluations := report_data.evaluations.map anonL
      detailed_evaluations := report_data.detailed_evaluations.map anonL
      members := members2
      teams := teams2 }
  let report_data_after : Report :=
    { evaluations := report_data.evaluations
      detailed_evaluations := report_data.detailed_evaluations
      members := members2
      teams := teams2 }
  (result, report_data_after)

/-! ### Helper lemmas -/

theorem q2_intCast (n : ℤ) : q2 (n : ℚ) = n := by
  unfold q2
  by_cases h : 0 ≤ (n : ℚ)
  · rw [if_pos h]
    have h1 : (100 : ℚ) * n + 1/2 = 1/2 + ((100 * n : ℤ) : ℚ) := by push_cast; ring
    rw [h1, Int.floor_add_int]
    have h2 : ⌊(1/2 : ℚ)⌋ = 0 := by norm_num
    rw [h2]
    push_cast
    ring
  · rw [if_neg h]
    have h1 : (100 : ℚ) * (-(n : ℚ)) + 1/2 = 1/2 + ((100 * (-n) : ℤ) : ℚ) := by push_cast; ring
    rw [h1, Int.floor_add_int]
    have h2 : ⌊(1/2 : ℚ)⌋ = 0 := by norm_num
    rw [h2]
    push_cast
    ring

theorem q2_mono {x y : ℚ} (h : x ≤ y) : q2 x ≤ q2 y := by
  unfold q2
  by_cases hx : 0 ≤ x
  · rw [if_pos hx, if_pos (le_trans hx h)]
    have hf : ⌊100 * x + 1/2⌋ ≤ ⌊100 * y + 1/2⌋ := Int.floor_le_floor (by linarith)
    have hf2 : ((⌊100 * x + 1/2⌋ : ℤ) : ℚ) ≤ ((⌊100 * y + 1/2⌋ : ℤ) : ℚ) := by exact_mod_cast hf
    linarith
  · rw [if_neg hx]
    by_cases hy : 0 ≤ y
    · rw [if_pos hy]
      have h1 : (0 : ℤ) ≤ ⌊100 * y + 1/2⌋ := Int.floor_nonneg.mpr (by linarith)
      have h2 : (0 : ℤ) ≤ ⌊100 * (-x) + 1/2⌋ := Int.floor_nonneg.mpr (by linarith)
      have h1q : (0 : ℚ) ≤ ((⌊100 * y + 1/2⌋ : ℤ) : ℚ) := by exact_mod_cast h1
      have h2q : (0 : ℚ) ≤ ((⌊100 * (-x) + 1/2⌋ : ℤ) : ℚ) := by exact_mod_cast h2
      linarith
    · rw [if_neg hy]
      have hf : ⌊100 * (-y) + 1/2⌋ ≤ ⌊100 * (-x) + 1/2⌋ := Int.floor_le_floor (by linarith)
      have hf2 : ((⌊100 * (-y) + 1/2⌋ : ℤ) : ℚ) ≤ ((⌊100 * (-x) + 1/2⌋ : ℤ) : ℚ) := by
        exact_mod_cast hf
      linarith

theorem q2_grid (x : ℚ) : ∃ k : ℤ, q2 x = k / 100 := by
  unfold q2
  by_cases hx : 0 ≤ x
  · exact ⟨⌊100 * x + 1/2⌋, by rw [if_pos hx]⟩
  · exact ⟨-⌊100 * (-x) + 1/2⌋, by rw [if_neg hx]; push_cast; ring⟩

theorem q2_near (x : ℚ) : |q2 x - x| ≤ 1 / 200 := by
  unfold q2
  by_cases hx : 0 ≤ x
  · rw [if_pos hx]
    have h1 : ((⌊100 * x + 1/2⌋ : ℤ) : ℚ) ≤ 100 * x + 1/2 := Int.floor_le _
    have h2 : 100 * x + 1/2 - 1 < ((⌊100 * x + 1/2⌋ : ℤ) : ℚ) := Int.sub_one_lt_floor _
    rw [abs_le]
    constructor <;> linarith
  · rw [if_neg hx]
    have h1 : ((⌊100 * (-x) + 1/2⌋ : ℤ) : ℚ) ≤ 100 * (-x) + 1/2 := Int.floor_le _
    have h2 : 100 * (-x) + 1/2 - 1 < ((⌊100 * (-x) + 1/2⌋ : ℤ) : ℚ) := Int.sub_one_lt_floor _
    rw [abs_le]
    constructor <;> linarith

theorem q2_tie_away {x : ℚ} (h : |q2 x - x| = 1 / 200) : |x| ≤ |q2 x| := by
  rcases abs_eq (by norm_num : (0:ℚ) ≤ 1/200) |>.mp h with heq | heq
  · -- q2 x = x + 1/200
    have hx : 0 ≤ x := by
      by_contra hneg
      push_neg at hneg
      have hdef : q2 x = -((⌊100 * (-x) + 1/2⌋ : ℚ) / 100) := by
        unfold q2; rw [if_neg (not_le.mpr hneg)]
      have h1 : ((⌊100 * (-x) + 1/2⌋ : ℤ) : ℚ) ≤ 100 * (-x) + 1/2 := Int.floor_le _
      have : q2 x - x ≥ -(1/200) := by rw [hdef]; linarith
      have hlt : q2 x - x < 1/200 := by
        have h2 : 100 * (-x) + 1/2 - 1 < ((⌊100 * (-x) + 1/2⌋ : ℤ) : ℚ) := Int.sub_one_lt_floor _
        rw [hdef]; linarith
      linarith
    have hq : q2 x = x + 1/200 := by linarith
    rw [hq, abs_of_nonneg hx, abs_of_nonneg (by linarith)]
    linarith
  · -- q2 x = x - 1/200
    have hx : ¬ 0 ≤ x := by
      intro hpos
      have hdef : q2 x = (⌊100 * x + 1/2⌋ : ℚ) / 100 := by
        unfold q2; rw [if_pos hpos]
      have h2 : 100 * x + 1/2 - 1 < ((⌊100 * x + 1/2⌋ : ℤ) : ℚ) := Int.sub_one_lt_floor _
      have : q2 x - x > -(1/200) := by rw [hdef]; linarith
      linarith
    push_neg at hx
    have hq : q2 x = x - 1/200 := by linarith
    rw [hq, abs_of_neg hx, abs_of_neg (by linarith : x - 1/200 < 0)]
    linarith

theorem q2_nonneg {x : ℚ} (h : 0 ≤ x) : 0 ≤ q2 x := by
  have := q2_intCast 0
  simpa using q2_mono h |>.trans' (by simpa using this.ge)

theorem sum_map_mul_right {α : Type} (l : List α) (f : α → ℚ) (r : ℚ) :
    (l.map (fun a => f a * r)).sum = (l.map f).sum * r := by
  induction l with
  | nil => simp
  | cons a as ih => simp [ih, add_mul]

theorem score_map_append (l : List ScoreEntry) (e : ScoreEntry) (cid : Int) :
    score_map (l ++ [e]) cid =
      if e.criterion_id = cid then some e.score else score_map l cid := by
  induction l with
  | nil =>
    by_cases h : e.criterion_id = cid <;> simp [score_map, h]
  | cons s rest ih =>
    rw [List.cons_append]
    show (match score_map (rest ++ [e]) cid with
      | some v => some v
      | none => if s.criterion_id = cid then some s.score else none) = _
    rw [ih]
    by_cases h : e.criterion_id = cid
    · simp [h]
    · simp only [if_neg h]
      rfl

theorem mapE_ok {α β : Type} {f : α → Except PyError β} {g : α → β} {l : List α}
    (h : ∀ a ∈ l, f a = .ok (g a)) : mapE f l = .ok (l.map g) := by
  induction l with
  | nil => rfl
  | cons a as ih =>
    have ha := h a (by simp)
    have has : mapE f as = .ok (as.map g) := ih (fun x hx => h x (by simp [hx]))
    simp [mapE, ha, has, Except.instMonad, Except.bind, Except.pure]

theorem criterionStep_ok (scores : List ScoreEntry) (ms : Int) (c : Criterion) :
    criterionStep scores ms c = .ok (breakdownEntry scores ms c, weightedValue scores ms c) := by
  by_cases h : 0 < c.max_points.getD 0
  · simp [criterionStep, breakdownEntry, weightedValue, divD, h, ne_of_gt h,
      Except.instMonad, Except.bind, Except.pure]
  · simp [criterionStep, breakdownEntry, weightedValue, divD, h,
      Except.instMonad, Except.bind, Except.pure]

theorem checkIndividual_none (n : Nat) (l : List Criterion) :
    checkIndividual n l = none ↔ ∀ c ∈ l, 0 ≤ c.weight.getD 0 ∧ c.weight.getD 0 ≤ 100 := by
  induction l generalizing n with
  | nil => simp [checkIndividual]
  | cons c rest ih =>
    by_cases h1 : c.weight.getD 0 < 0
    · refine iff_of_false ?_ ?_
      · simp [checkIndividual, h1]
      · intro hall
        exact absurd (hall c (by simp)).1 (not_le.mpr h1)
    · by_cases h2 : 100 < c.weight.getD 0
      · refine iff_of_false ?_ ?_
        · simp [checkIndividual, h1, h2]
        · intro hall
          exact absurd (hall c (by simp)).2 (not_le.mpr h2)
      · have hstep : checkIndividual n (c :: rest) = checkIndividual (n + 1) rest := by
          simp [checkIndividual, h1, h2]
        rw [hstep, ih (n + 1)]
        constructor
        · intro hrest x hx
          rcases List.mem_cons.mp hx with rfl | hx
          · exact ⟨le_of_not_lt h1, le_of_not_lt h2⟩
          · exact hrest x hx
        · intro hall x hx
          exact hall x (List.mem_cons_of_mem _ hx)

theorem calc_total_def (scores : List ScoreEntry) (criteria : List Criterion) (ms : Int) :
    (calculate_weighted_score scores criteria ms).weighted_total =
      q2 ((criteria.map (weightedValue scores ms)).sum) := rfl

theorem calc_breakdown_def (scores : List ScoreEntry) (criteria : List Criterion) (ms : Int) :
    (calculate_weighted_score scores criteria ms).breakdown =
      criteria.map (breakdownEntry scores ms) := rfl

/-! ### Claims -/

/-- C1 (counterexample): for the unprivileged role `"student"`, a record that
has an `evaluator` field but no `evaluator_id` field is anonymized (the
sentinel is substituted) yet does **not** receive the
`evaluator_id_hidden = True` marker, contradicting the claim that the marker
is present on every anonymized record. -/
theorem anonymize_evaluator_marker_missing_counterexample :
    pyLower "student" ≠ "instructor" ∧ pyLower "student" ≠ "admin" ∧
    (anonymize_evaluator
        ⟨none, none, some ⟨.int 123, "John Doe", "john@example.com"⟩, none, none, none, none⟩
        none (some "student")).evaluator = some anonymousEvaluator ∧
    (anonymize_evaluator
        ⟨none, none, some ⟨.int 123, "John Doe", "john@example.com"⟩, none, none, none, none⟩
        none (some "student")).evaluator_id_hidden ≠ some true := by
  refine ⟨by decide, by decide, ?_, ?_⟩ <;> decide

/-- C1 (amended): for every evaluation record and every role that is not
(case-insensitively) `"instructor"` or `"admin"` (including `None`, the empty
string, and `"student"`), `anonymize_evaluator` replaces the `evaluator` field
with the fixed sentinel **when that field is present**, sets
`evaluator_id_hidden = True` **exactly when the record has an `evaluator_id`
field** (leaving a pre-existing marker value untouched otherwise), and leaves
`evaluator_id` and every other field unchanged. -/
theorem anonymize_evaluator_unprivileged_spec (e : Evaluation) (rid : Option Int)
    (role : Option String)
    (h : ∀ s, role = some s → pyLower s ≠ "instructor" ∧ pyLower s ≠ "admin") :
    (anonymize_evaluator e rid role).evaluator
        = (if e.evaluator.isSome then some anonymousEvaluator else none) ∧
    (anonymize_evaluator e rid role).evaluator_id_hidden
        = (if e.evaluator_id.isSome then some true else e.evaluator_id_hidden) ∧
    (anonymize_evaluator e rid role).evaluator_id = e.evaluator_id ∧
    (anonymize_evaluator e rid role).id = e.id ∧
    (anonymize_evaluator e rid role).evaluatee_id = e.evaluatee_id ∧
    (anonymize_evaluator e rid role).total_score = e.total_score ∧
    (anonymize_evaluator e rid role).comments = e.comments := by
  have hcv : can_view_evaluator_identity role = false := by
    cases role with
    | none => rfl
    | some s =>
      have hs := h s rfl
      by_cases hemp : s = "" <;>
        simp [can_view_evaluator_identity, hemp, hs.1, hs.2]
  unfold anonymize_evaluator
  rw [hcv]
  cases he : e.evaluator <;> cases hei : e.evaluator_id <;>
    simp [he, hei]

/-- C1 (witness): the amended theorem applied to the concrete record and role
of the repository's own test (`test_anonymize_evaluator_for_student`). -/
theorem anonymize_evaluator_unprivileged_spec_witness :
    (anonymize_evaluator
        ⟨some 1, some 123, some ⟨.int 123, "John Doe", "john@example.com"⟩,
          some 456, some 85, some "Great work!", none⟩
        none (some "student")).evaluator = some anonymousEvaluator ∧
    (anonymize_evaluator
        ⟨some 1, some 123, some ⟨.int 123, "John Doe", "john@example.com"⟩,
          some 456, some 85, some "Great work!", none⟩
        none (some "student")).evaluator_id_hidden = some true := by
  have h := anonymize_evaluator_unprivileged_spec
    ⟨some 1, some 123, some ⟨.int 123, "John Doe", "john@example.com"⟩,
      some 456, some 85, some "Great work!", none⟩
    none (some "student")
    (by intro s hs; cases Option.some.inj hs; exact ⟨by decide, by decide⟩)
  exact ⟨by simpa using h.1, by simpa using h.2.1⟩

/-- C2 (code bug, evaluated at the failing input): the docstring of
`distribute_weights_evenly` promises a list summing to 100 and its residual
branch is commented `ensure sum is exactly 100`, but the residual is added
**before** the 2-decimal quantization, so `distribute_weights_evenly(3)`
returns three copies of `33.33`, which sum to `99.99`, not `100.00`. -/
theorem distribute_weights_evenly_three_sum :
    distribute_weights_evenly 3 = [3333/100, 3333/100, 3333/100] ∧
    (distribute_weights_evenly 3).sum = 9999/100 ∧
    (distribute_weights_evenly 3).sum ≠ 100 := by
  refine ⟨?_, ?_, ?_⟩ <;>
    norm_num [distribute_weights_evenly, q2, Int.floor_eq_iff, List.replicate]

/-- C2 (witness): the evaluated sum extracted from the failing-input
theorem. -/
theorem distribute_weights_evenly_three_sum_witness :
    (distribute_weights_evenly 3).sum = 9999/100 :=
  distribute_weights_evenly_three_sum.2.1

/-- C3 (counterexample): on the empty criteria list the weight sum (0)
deviates from 100 by more than 0.01, yet `validate_weights` returns the
message `"No criteria provided"`, which does not embed the computed sum —
so the claim's second half fails at `[]`. -/
theorem validate_weights_empty_counterexample :
    1/100 < |totalWeight ([] : List Criterion) - 100| ∧
    validate_weights [] = (false, some .noCriteria) ∧
    (validate_weights []).2 ≠ some (.badSum (totalWeight [])) := by
  refine ⟨by norm_num [totalWeight], by norm_num [validate_weights], ?_⟩
  norm_num [validate_weights, totalWeight]
  exact fun h => WError.noConfusion h

/-- C3 (amended): `validate_weights(criteria)` returns `(True, "")` if and
only if the criteria list is non-empty, every weight lies in `[0, 100]`, and
the weight sum deviates from 100 by at most 0.01 (exact decimal comparison);
and whenever the list is **non-empty** and the weight sum deviates from 100
by more than 0.01 it returns `(False, msg)` with the actual computed sum
embedded in `msg`. -/
theorem validate_weights_spec :
    (∀ criteria : List Criterion,
      validate_weights criteria = (true, none) ↔
        (criteria ≠ [] ∧ |totalWeight criteria - 100| ≤ 1/100 ∧
          ∀ c ∈ criteria, 0 ≤ c.weight.getD 0 ∧ c.weight.getD 0 ≤ 100)) ∧
    (∀ criteria : List Criterion, criteria ≠ [] →
      1/100 < |totalWeight criteria - 100| →
      validate_weights criteria = (false, some (.badSum (totalWeight criteria)))) := by
  constructor
  · intro criteria
    by_cases hemp : criteria = []
    · subst hemp
      exact iff_of_false (by norm_num [validate_weights]) (by simp)
    · unfold validate_weights
      rw [if_neg hemp]
      by_cases hsum : 1/100 < |totalWeight criteria - 100|
      · rw [if_pos hsum]
        refine iff_of_false (by simp) ?_
        rintro ⟨-, hle, -⟩
        exact absurd hsum (not_lt.mpr hle)
      · rw [if_neg hsum]
        cases hci : checkIndividual 1 criteria with
        | some e =>
          refine iff_of_false (by simp) ?_
          rintro ⟨-, -, hall⟩
          rw [(checkIndividual_none 1 criteria).mpr hall] at hci
          exact Option.noConfusion hci
        | none =>
          exact iff_of_true rfl ⟨hemp, not_lt.mp hsum, (checkIndividual_none 1 criteria).mp hci⟩
  · intro criteria hemp hsum
    unfold validate_weights
    rw [if_neg hemp, if_pos hsum]

/-- C3 (witness): the amended theorem applied to a singleton passing list and
to a singleton list whose weight sum 50 misses 100. -/
theorem validate_weights_spec_witness :
    validate_weights [⟨1, some 100, none, none⟩] = (true, none) ∧
    validate_weights [⟨1, some 50, none, none⟩] = (false, some (.badSum (totalWeight [⟨1, some 50, none, none⟩]))) := by
  constructor
  · exact (validate_weights_spec.1 [⟨1, some 100, none, none⟩]).mpr
      ⟨by simp, by norm_num [totalWeight], by intro c hc; fin_cases hc; norm_num⟩
  · exact validate_weights_spec.2 [⟨1, some 50, none, none⟩] (by simp)
      (by norm_num [totalWeight])

/-- C4: for every criteria list whose weights sum to exactly 100 and whose
`max_points` are all positive, if the raw score looked up for every criterion
equals that criterion's `max_points` then `weighted_total = max_score`; and if
every criterion's raw score is 0 then `weighted_total = 0.0`. -/
theorem calculate_weighted_score_perfect_and_zero
    (scores : List ScoreEntry) (criteria : List Criterion) (ms : Int)
    (hw : totalWeight criteria = 100)
    (hmp : ∀ c ∈ criteria, 0 < c.max_points.getD 0) :
    ((∀ c ∈ criteria, (score_map scores c.id).getD 0 = c.max_points.getD 0) →
      (calculate_weighted_score scores criteria ms).weighted_total = ms) ∧
    ((∀ c ∈ criteria, (score_map scores c.id).getD 0 = 0) →
      (calculate_weighted_score scores criteria ms).weighted_total = 0) := by
  constructor
  · intro hperfect
    rw [calc_total_def]
    have hmap : criteria.map (weightedValue scores ms)
        = criteria.map (fun c => c.weight.getD 0 * ((1/100) * (ms : ℚ))) := by
      apply List.map_congr_left
      intro c hc
      have hmpc := hmp c hc
      simp only [weightedValue, hperfect c hc, if_pos hmpc,
        div_self (ne_of_gt hmpc)]
      ring
    rw [hmap, sum_map_mul_right]
    have : totalWeight criteria * ((1:ℚ)/100 * ms) = ms := by
      rw [hw]; ring
    rw [show (criteria.map (fun c => c.weight.getD 0)).sum = totalWeight criteria from rfl, this]
    exact_mod_cast q2_intCast ms
  · intro hzero
    rw [calc_total_def]
    have hmap : criteria.map (weightedValue scores ms)
        = criteria.map (fun _ => (0 : ℚ)) := by
      apply List.map_congr_left
      intro c hc
      simp only [weightedValue, hzero c hc, if_pos (hmp c hc), zero_div]
      ring
    rw [hmap]
    simp only [List.map_const', List.sum_replicate, smul_zero]
    exact_mod_cast q2_intCast 0

/-- C4 (witness): the two-criterion rubric of the spec's concrete scenario,
scored perfectly and scored all-zero. -/
theorem calculate_weighted_score_perfect_and_zero_witness :
    (calculate_weighted_score [⟨1, 10⟩, ⟨2, 20⟩]
        [⟨1, some 50, some 10, none⟩, ⟨2, some 50, some 20, none⟩] 100).weighted_total = 100 ∧
    (calculate_weighted_score []
        [⟨1, some 50, some 10, none⟩, ⟨2, some 50, some 20, none⟩] 100).weighted_total = 0 := by
  constructor
  · have h := calculate_weighted_score_perfect_and_zero [⟨1, 10⟩, ⟨2, 20⟩]
      [⟨1, some 50, some 10, none⟩, ⟨2, some 50, some 20, none⟩] 100
      (by norm_num [totalWeight])
      (by intro c hc; fin_cases hc <;> norm_num)
    exact_mod_cast h.1 (by intro c hc; fin_cases hc <;> norm_num [score_map])
  · have h := calculate_weighted_score_perfect_and_zero []
      [⟨1, some 50, some 10, none⟩, ⟨2, some 50, some 20, none⟩] 100
      (by norm_num [totalWeight])
      (by intro c hc; fin_cases hc <;> norm_num)
    exact h.2 (by intro c hc; fin_cases hc <;> norm_num [score_map])

/-- C5 (counterexample): `calculate_weighted_score` is **not** monotonic in a
raw score for arbitrary criteria: with the single criterion
`{id: 1, weight: -100, max_points: 10}` and `max_score = 100`, raising
criterion 1's raw score from 0 (no entry) to 10 drops `weighted_total`
from 0.0 to -100.0. -/
theorem calculate_weighted_score_not_monotone_counterexample :
    (calculate_weighted_score [⟨1, 10⟩] [⟨1, some (-100), some 10, none⟩] 100).weighted_total
      < (calculate_weighted_score [] [⟨1, some (-100), some 10, none⟩] 100).weighted_total := by
  norm_num [calculate_weighted_score, weightedValue, score_map, q2, Int.floor_eq_iff]

/-- C5 (amended): `calculate_weighted_score` is monotonic in each raw score
provided `max_score` is nonnegative and every criterion bearing the changed
criterion id has nonnegative weight (always the case for validated forms):
appending a score entry for `cid` with a larger value (the appended entry is
the last one, hence the one the score dict retains) never decreases
`weighted_total`, all other inputs held fixed. -/
theorem calculate_weighted_score_monotone
    (scores : List ScoreEntry) (criteria : List Criterion) (ms : Int) (cid : Int)
    (s1 s2 : ℚ) (hms : 0 ≤ ms) (hs : s1 ≤ s2)
    (hw : ∀ c ∈ criteria, c.id = cid → 0 ≤ c.weight.getD 0) :
    (calculate_weighted_score (scores ++ [⟨cid, s1⟩]) criteria ms).weighted_total ≤
    (calculate_weighted_score (scores ++ [⟨cid, s2⟩]) criteria ms).weighted_total := by
  rw [calc_total_def, calc_total_def]
  apply q2_mono
  apply List.sum_le_sum
  intro c hc
  unfold weightedValue
  rw [score_map_append, score_map_append]
  simp only
  by_cases hcid : cid = c.id
  · rw [if_pos hcid, if_pos hcid]
    simp only [Option.getD_some]
    have hwc : 0 ≤ c.weight.getD 0 := hw c hc hcid.symm
    have hmsq : (0 : ℚ) ≤ (ms : ℚ) := by exact_mod_cast hms
    by_cases hmp : 0 < c.max_points.getD 0
    · rw [if_pos hmp, if_pos hmp]
      have hnorm : s1 / c.max_points.getD 0 ≤ s2 / c.max_points.getD 0 := by gcongr
      exact mul_le_mul_of_nonneg_right
        (mul_le_mul_of_nonneg_right hnorm (by positivity)) hmsq
    · rw [if_neg hmp, if_neg hmp]
  · rw [if_neg hcid, if_neg hcid]

/-- C5 (witness): the amended monotonicity at a concrete rubric: raising the
raw score of criterion 1 from 4 to 8 does not decrease the total. -/
theorem calculate_weighted_score_monotone_witness :
    (calculate_weighted_score [⟨1, 4⟩] [⟨1, some 50, some 10, none⟩] 100).weighted_total ≤
    (calculate_weighted_score [⟨1, 8⟩] [⟨1, some 50, some 10, none⟩] 100).weighted_total := by
  have h := calculate_weighted_score_monotone [] [⟨1, some 50, some 10, none⟩] 100 1 4 8
    (by norm_num) (by norm_num)
    (by intro c hc _; fin_cases hc; norm_num)
  simpa using h

theorem importanceMultiplier_pos (s : String) : 0 < importanceMultiplier s := by
  unfold importanceMultiplier
  split_ifs <;> norm_num

theorem sum_map_nonneg {α : Type} (l : List α) (f : α → ℚ) (h : ∀ a ∈ l, 0 ≤ f a) :
    0 ≤ (l.map f).sum := by
  induction l with
  | nil => simp
  | cons a as ih =>
    simp only [List.map_cons, List.sum_cons]
    have h1 := h a (by simp)
    have h2 := ih (fun x hx => h x (by simp [hx]))
    linarith

theorem total_units_pos (criteria : List Criterion) (hne : criteria ≠ [])
    (il : List (Int × String)) :
    0 < (criteria.map (fun c => importanceMultiplier (importanceOf il c))).sum := by
  cases criteria with
  | nil => exact absurd rfl hne
  | cons c rest =>
    simp only [List.map_cons, List.sum_cons]
    have h1 := importanceMultiplier_pos (importanceOf il c)
    have h2 := sum_map_nonneg rest (fun c => importanceMultiplier (importanceOf il c))
      (fun x _ => (importanceMultiplier_pos (importanceOf il x)).le)
    linarith

/-- C6 (counterexample): `get_weight_suggestions` is **not** total: called
with an empty criteria list and a non-empty importance mapping it executes
`weights[0] += diff` on the empty `weights` list (`sum([]) = 0 ≠ 100`), an
out-of-bounds access (`IndexError`). -/
theorem get_weight_suggestions_raises_counterexample :
    get_weight_suggestions [] (some [(1, "high")]) = .error .IndexError := by
  norm_num [get_weight_suggestions, bumpHead, mapE, Except.instMonad, Except.bind, Except.pure]

/-- C6 (amended): `calculate_weighted_score` never raises on any input of the
expected shape — the `score / max_points` division only executes under the
`max_points > 0` guard and missing scores and fields are defaulted — and
returns the modelled result; `get_weight_suggestions` never raises whenever
the importance mapping is absent or empty (falling back to the even
distribution) or the criteria list is non-empty, the only raising input being
an empty criteria list combined with a non-empty importance mapping. -/
theorem scoring_operations_total
    (scores : List ScoreEntry) (criteria : List Criterion) (ms : Int)
    (il : List (Int × String)) :
    calculate_weighted_score_checked scores criteria ms
      = .ok (calculate_weighted_score scores criteria ms) ∧
    get_weight_suggestions criteria none
      = .ok (distribute_weights_evenly criteria.length) ∧
    get_weight_suggestions criteria (some [])
      = .ok (distribute_weights_evenly criteria.length) ∧
    (criteria ≠ [] → ∃ r, get_weight_suggestions criteria (some il) = .ok r) := by
  refine ⟨?_, rfl, by simp [get_weight_suggestions], ?_⟩
  · have hmap : mapE (criterionStep scores ms) criteria
        = .ok (criteria.map (fun c => (breakdownEntry scores ms c, weightedValue scores ms c))) :=
      mapE_ok (fun c _ => criterionStep_ok scores ms c)
    simp [calculate_weighted_score_checked, hmap, calculate_weighted_score,
      List.map_map, Function.comp_def, Except.instMonad, Except.bind, Except.pure]
  · intro hne
    by_cases hil : il = []
    · subst hil
      exact ⟨distribute_weights_evenly criteria.length, by simp [get_weight_suggestions]⟩
    · obtain ⟨c0, rest, rfl⟩ := List.exists_cons_of_ne_nil hne
      simp only [get_weight_suggestions]
      rw [if_neg hil]
      have htupos := total_units_pos (c0 :: rest) (by simp) il
      have hmapE := mapE_ok (l := c0 :: rest)
        (f := fun c => do
          let w ← divD (importanceMultiplier (importanceOf il c))
            (((c0 :: rest).map (fun c => importanceMultiplier (importanceOf il c))).sum)
          pure (q2 (w * 100)))
        (g := fun c => q2 (importanceMultiplier (importanceOf il c) /
          (((c0 :: rest).map (fun c => importanceMultiplier (importanceOf il c))).sum) * 100))
        (fun c _ => by
          have hne0 : ((c0 :: rest).map (fun x => importanceMultiplier (importanceOf il x))).sum ≠ 0 :=
            ne_of_gt htupos
          simp only [divD, if_neg hne0, Except.instMonad, Except.bind, Except.pure])
      simp only [hmapE]
      simp only [List.map_cons]
      simp only [Except.instMonad, Except.bind, Except.pure, bumpHead]
      split_ifs <;> exact ⟨_, rfl⟩

/-- C6 (witness): the totality results at concrete inputs: a one-criterion
list with a non-empty importance mapping succeeds, and the checked run of the
empty calculation returns the pure result. -/
theorem scoring_operations_total_witness :
    (∃ r, get_weight_suggestions [⟨1, none, none, none⟩] (some [(1, "high")]) = .ok r) ∧
    calculate_weighted_score_checked [] [] 0 = .ok (calculate_weighted_score [] [] 0) := by
  have h := scoring_operations_total [] [⟨1, none, none, none⟩] 0 [(1, "high")]
  exact ⟨h.2.2.2 (by simp), (scoring_operations_total [] [] 0 []).1⟩

theorem anonymize_evaluator_privileged (e : Evaluation) (rid : Option Int)
    (role : Option String) (h : can_view_evaluator_identity role = true) :
    anonymize_evaluator e rid role = e := by
  simp [anonymize_evaluator, h]

/-- C7 (counterexample): `anonymize_report_data` is **not** side-effect-free
on its argument: `result = report_data.copy()` is a shallow copy, so the loop
`member_data["evaluations"] = ...` writes into the member dicts shared with
the caller's report.  For a student-role request on a team report with one
member evaluation, the caller's input differs after the call. -/
theorem anonymize_report_data_mutates_counterexample :
    (anonymize_report_data
        ⟨none, none,
          some [⟨some [⟨none, none, some ⟨.int 1, "John Doe", "john@example.com"⟩,
            none, none, none, none⟩]⟩], none⟩
        (some "student")).2
      ≠ ⟨none, none,
          some [⟨some [⟨none, none, some ⟨.int 1, "John Doe", "john@example.com"⟩,
            none, none, none, none⟩]⟩], none⟩ := by
  decide

/-- C7 (amended): `anonymize_evaluator`, `anonymize_evaluation_list` and all
calculator operations are pure; `anonymize_report_data` never replaces the
input's top-level `evaluations` / `detailed_evaluations` entries, and leaves
the whole input unchanged when the role is privileged or when the report has
no `members` and no `teams` keys — but when anonymization applies it rewrites
the `evaluations` entries of nested member dicts in place (the part the
original claim missed). -/
theorem anonymize_report_data_mutation_spec (r : Report) (role : Option String) :
    ((anonymize_report_data r role).2.evaluations = r.evaluations ∧
     (anonymize_report_data r role).2.detailed_evaluations = r.detailed_evaluations) ∧
    (can_view_evaluator_identity role = true → (anonymize_report_data r role).2 = r) ∧
    (r.members = none → r.teams = none → (anonymize_report_data r role).2 = r) := by
  refine ⟨⟨rfl, rfl⟩, ?_, ?_⟩
  · intro h
    have hae : ∀ e, anonymize_evaluator e none role = e :=
      fun e => anonymize_evaluator_privileged e none role h
    cases r
    simp [anonymize_report_data, anonymize_evaluation_list, hae]
  · intro h1 h2
    cases r
    simp_all [anonymize_report_data]

/-- C7 (witness): the amended no-mutation guarantees at concrete reports: an
instructor-role call and a report with only top-level evaluations leave the
input unchanged. -/
theorem anonymize_report_data_mutation_spec_witness :
    (anonymize_report_data
        ⟨none, none,
          some [⟨some [⟨none, none, some ⟨.int 1, "John Doe", "john@example.com"⟩,
            none, none, none, none⟩]⟩], none⟩
        (some "instructor")).2
      = ⟨none, none,
          some [⟨some [⟨none, none, some ⟨.int 1, "John Doe", "john@example.com"⟩,
            none, none, none, none⟩]⟩], none⟩ ∧
    (anonymize_report_data
        ⟨some [⟨none, none, some ⟨.int 2, "Jane", "jane@example.com"⟩,
          none, none, none, none⟩], none, none, none⟩
        (some "student")).2
      = ⟨some [⟨none, none, some ⟨.int 2, "Jane", "jane@example.com"⟩,
          none, none, none, none⟩], none, none, none⟩ := by
  constructor
  · exact (anonymize_report_data_mutation_spec _ _).2.1 (by decide)
  · exact (anonymize_report_data_mutation_spec _ _).2.2 rfl rfl

/-- C8: the returned `weighted_total` and every breakdown `weighted_score`
are the exact weighted values rounded to 2 decimal places with round-half-up
(ties away from zero) semantics: each output lies on the 0.01 grid, is within
1/200 of the exact value, and on an exact tie its magnitude is at least the
exact value's — the last property is what distinguishes round-half-up from
banker's rounding, which moves ties toward the even (possibly smaller)
neighbour. -/
theorem calculate_weighted_score_rounding (scores : List ScoreEntry)
    (criteria : List Criterion) (ms : Int) :
    ((∃ k : ℤ, (calculate_weighted_score scores criteria ms).weighted_total = k / 100) ∧
     |(calculate_weighted_score scores criteria ms).weighted_total -
        (criteria.map (weightedValue scores ms)).sum| ≤ 1/200 ∧
     (|(calculate_weighted_score scores criteria ms).weighted_total -
        (criteria.map (weightedValue scores ms)).sum| = 1/200 →
       |(criteria.map (weightedValue scores ms)).sum| ≤
         |(calculate_weighted_score scores criteria ms).weighted_total|)) ∧
    ((calculate_weighted_score scores criteria ms).breakdown
        = criteria.map (breakdownEntry scores ms) ∧
     ∀ c ∈ criteria,
       (∃ k : ℤ, (breakdownEntry scores ms c).weighted_score = k / 100) ∧
       |(breakdownEntry scores ms c).weighted_score - weightedValue scores ms c| ≤ 1/200 ∧
       (|(breakdownEntry scores ms c).weighted_score - weightedValue scores ms c| = 1/200 →
         |weightedValue scores ms c| ≤ |(breakdownEntry scores ms c).weighted_score|)) := by
  refine ⟨⟨?_, ?_, ?_⟩, rfl, ?_⟩
  · rw [calc_total_def]; exact q2_grid _
  · rw [calc_total_def]; exact q2_near _
  · rw [calc_total_def]; exact fun h => q2_tie_away h
  · intro c _
    have hws : (breakdownEntry scores ms c).weighted_score
        = q2 (weightedValue scores ms c) := rfl
    exact ⟨hws ▸ q2_grid _, hws ▸ q2_near _, fun h => q2_tie_away (hws ▸ h)⟩

/-- C8 (witness): rounding spec instantiated at a rubric whose exact weighted
value is the tie 0.125, which rounds up to 0.13 (banker's rounding would give
0.12). -/
theorem calculate_weighted_score_rounding_witness :
    |(breakdownEntry [⟨1, 1⟩] 1 ⟨1, some 25, some 2, none⟩).weighted_score -
        weightedValue [⟨1, 1⟩] 1 ⟨1, some 25, some 2, none⟩| ≤ 1/200 ∧
    (calculate_weighted_score [⟨1, 1⟩] [⟨1, some 25, some 2, none⟩] 1).weighted_total
      = 13/100 := by
  constructor
  · exact ((calculate_weighted_score_rounding [⟨1, 1⟩] [⟨1, some 25, some 2, none⟩] 1).2.2
      ⟨1, some 25, some 2, none⟩ (by simp)).2.1
  · norm_num [calculate_weighted_score, weightedValue, score_map, q2, Int.floor_eq_iff]

theorem calc_score_congr (scores1 scores2 : List ScoreEntry) (criteria : List Criterion)
    (ms : Int) (h : ∀ c ∈ criteria, score_map scores1 c.id = score_map scores2 c.id) :
    calculate_weighted_score scores1 criteria ms
      = calculate_weighted_score scores2 criteria ms := by
  have hwv : criteria.map (weightedValue scores1 ms) = criteria.map (weightedValue scores2 ms) :=
    List.map_congr_left (fun c hc => by simp only [weightedValue, h c hc])
  have hbd : criteria.map (breakdownEntry scores1 ms)
      = criteria.map (breakdownEntry scores2 ms) :=
    List.map_congr_left (fun c hc => by simp only [breakdownEntry, weightedValue, h c hc])
  simp only [calculate_weighted_score, hwv, hbd]

/-- C9: `calculate_weighted_score` depends on the scores list only through
the last entry listed for each criterion id appearing in the criteria list:
score lists with the same last-entry lookup for every criterion give equal
results; an appended entry matching no criterion changes nothing; of two
entries for the same id only the later one counts; and the breakdown carries
exactly one entry per criterion, in criteria-list order. -/
theorem calculate_weighted_score_score_dependence :
    (∀ (scores1 scores2 : List ScoreEntry) (criteria : List Criterion) (ms : Int),
      (∀ c ∈ criteria, score_map scores1 c.id = score_map scores2 c.id) →
      calculate_weighted_score scores1 criteria ms
        = calculate_weighted_score scores2 criteria ms) ∧
    (∀ (scores : List ScoreEntry) (criteria : List Criterion) (ms : Int) (e : ScoreEntry),
      (∀ c ∈ criteria, c.id ≠ e.criterion_id) →
      calculate_weighted_score (scores ++ [e]) criteria ms
        = calculate_weighted_score scores criteria ms) ∧
    (∀ (scores : List ScoreEntry) (criteria : List Criterion) (ms : Int)
        (cid : Int) (s1 s2 : ℚ),
      calculate_weighted_score (scores ++ [⟨cid, s1⟩, ⟨cid, s2⟩]) criteria ms
        = calculate_weighted_score (scores ++ [⟨cid, s2⟩]) criteria ms) ∧
    (∀ (scores : List ScoreEntry) (criteria : List Criterion) (ms : Int),
      ((calculate_weighted_score scores criteria ms).breakdown).map (fun e => e.criterion_id)
        = criteria.map (fun c => c.id)) := by
  refine ⟨fun s1 s2 criteria ms h => calc_score_congr s1 s2 criteria ms h, ?_, ?_, ?_⟩
  · intro scores criteria ms e h
    apply calc_score_congr
    intro c hc
    rw [score_map_append, if_neg (fun he => h c hc he.symm)]
  · intro scores criteria ms cid s1 s2
    apply calc_score_congr
    intro c _
    have hsplit : scores ++ [(⟨cid, s1⟩ : ScoreEntry), ⟨cid, s2⟩]
        = (scores ++ [⟨cid, s1⟩]) ++ [⟨cid, s2⟩] := by simp
    rw [hsplit]
    simp only [score_map_append]
    by_cases hx : cid = c.id <;> simp [hx]
  · intro scores criteria ms
    simp [calc_breakdown_def, breakdownEntry, List.map_map, Function.comp_def]

/-- C9 (witness): a score entry for an id absent from the criteria list does
not change the result. -/
theorem calculate_weighted_score_score_dependence_witness :
    calculate_weighted_score [⟨2, 5⟩] [⟨1, some 100, some 10, none⟩] 100
      = calculate_weighted_score [] [⟨1, some 100, some 10, none⟩] 100 :=
  calculate_weighted_score_score_dependence.1 [⟨2, 5⟩] [] [⟨1, some 100, some 10, none⟩] 100
    (by intro c hc; fin_cases hc; simp [score_map])

/-- C10: with `importance_levels` equal to `None` or the empty mapping,
`get_weight_suggestions` returns exactly `distribute_weights_evenly(n)`; and
this fallback can differ from mapping every criterion explicitly to
`"medium"`: for three criteria the all-medium path quantizes `100/3` to
`33.33` per criterion and then adds the residual `0.01` to the first weight
(`[33.34, 33.33, 33.33]`), while the even-distribution path adds its (exact-
arithmetic zero) residual before quantization (`[33.33, 33.33, 33.33]`). -/
theorem get_weight_suggestions_fallback :
    (∀ criteria : List Criterion,
      get_weight_suggestions criteria none
        = .ok (distribute_weights_evenly criteria.length) ∧
      get_weight_suggestions criteria (some [])
        = .ok (distribute_weights_evenly criteria.length)) ∧
    (get_weight_suggestions
        [⟨1, none, none, none⟩, ⟨2, none, none, none⟩, ⟨3, none, none, none⟩]
        (some [(1, "medium"), (2, "medium"), (3, "medium")])
      = .ok [3334/100, 3333/100, 3333/100] ∧
     distribute_weights_evenly 3 = [3333/100, 3333/100, 3333/100] ∧
     get_weight_suggestions
        [⟨1, none, none, none⟩, ⟨2, none, none, none⟩, ⟨3, none, none, none⟩]
        (some [(1, "medium"), (2, "medium"), (3, "medium")])
      ≠ .ok (distribute_weights_evenly
          ([⟨1, none, none, none⟩, ⟨2, none, none, none⟩, ⟨3, none, none, none⟩] :
            List Criterion).length)) := by
  have hmed : get_weight_suggestions
      [⟨1, none, none, none⟩, ⟨2, none, none, none⟩, ⟨3, none, none, none⟩]
      (some [(1, "medium"), (2, "medium"), (3, "medium")])
      = .ok [3334/100, 3333/100, 3333/100] := by
    norm_num +decide [get_weight_suggestions, bumpHead, mapE, importanceOf,
      importanceMultiplier, q2, Int.floor_eq_iff, divD, lookupImportance,
      Except.instMonad, Except.bind, Except.pure]
  have hdist : distribute_weights_evenly 3 = [3333/100, 3333/100, 3333/100] := by
    norm_num [distribute_weights_evenly, q2, Int.floor_eq_iff, List.replicate]
  refine ⟨fun criteria => ⟨rfl, by simp [get_weight_suggestions]⟩, hmed, hdist, ?_⟩
  rw [hmed]
  show Except.ok _ ≠ Except.ok (distribute_weights_evenly (3 : Nat))
  rw [show ((3 : Nat) : Int) = (3 : Int) from rfl, hdist]
  intro hcontra
  have h2 := Except.ok.inj hcontra
  simp only [List.cons.injEq] at h2
  exact absurd h2.1 (by norm_num)

/-- C10 (witness): the fallback equality at the empty criteria list. -/
theorem get_weight_suggestions_fallback_witness :
    get_weight_suggestions [] none = .ok (distribute_weights_evenly 0) :=
  (get_weight_suggestions_fallback.1 []).1

end OPET
